import Mathlib

/-!
# Verification of the mount orchestration core of `init/builtins.c`

A shallow embedding of `do_mount` / `do_mount_all` from
`android_system_core/init/builtins.c`.  Syscall outcomes (`mount(2)`,
`open(2)`, `ioctl`, lookups, `make_ext4fs`, `fork`/`waitpid`) are supplied
by an explicit `World` oracle; the embedding returns the function's return
value together with a trace of the externally visible events (property
writes, mount calls, fd opens/closes, loop ioctls, sleeps, waits).
The two unbounded loops of the source (the `inand@` lookup poll and the
loop-device slot scan) are embedded with explicit fuel: a `none` result
means the invocation has not returned within `fuel` loop iterations.
-/

namespace Builtins

/-- Linux `MS_*` mount-flag constants, from `<sys/mount.h>`. -/
def MS_RDONLY : ℕ := 1
def MS_NOSUID : ℕ := 2
def MS_NODEV : ℕ := 4
def MS_NOEXEC : ℕ := 8
def MS_REMOUNT : ℕ := 32
def MS_NOATIME : ℕ := 1024
def MS_NODIRATIME : ℕ := 2048
def MS_BIND : ℕ := 4096
def MS_REC : ℕ := 16384
def MS_UNBINDABLE : ℕ := 131072
def MS_PRIVATE : ℕ := 262144
def MS_SLAVE : ℕ := 524288
def MS_SHARED : ℕ := 1048576

/-- The static `mount_flags[]` keyword table of `builtins.c` (name, flag),
in source order; the terminating `{0,0}` sentinel is the end of the list. -/
def mount_flags : List (String × ℕ) :=
  [ ("noatime",    MS_NOATIME),
    ("noexec",     MS_NOEXEC),
    ("nosuid",     MS_NOSUID),
    ("nodev",      MS_NODEV),
    ("nodiratime", MS_NODIRATIME),
    ("ro",         MS_RDONLY),
    ("rw",         0),
    ("remount",    MS_REMOUNT),
    ("bind",       MS_BIND),
    ("rec",        MS_REC),
    ("unbindable", MS_UNBINDABLE),
    ("private",    MS_PRIVATE),
    ("slave",      MS_SLAVE),
    ("shared",     MS_SHARED),
    ("defaults",   0) ]

/-- The inner `for (i = 0; mount_flags[i].name; i++)` scan with `strcmp`:
the flag of the first table entry whose name equals the token, if any. -/
def lookupFlag (tok : String) : Option ℕ :=
  (mount_flags.find? (fun p => p.1 == tok)).map (·.2)

/-- The argument-parsing loop of `do_mount` (`for (n = 4; n < nargs; n++)`),
over the trailing tokens `args[4..nargs)`.  A token matching the table ORs
its flag in; an unmatched token equal to `"wait"` sets `wait`; an unmatched
last token becomes the options string; any other unmatched token is ignored.
Returns `(flags, options, wait)`. -/
def parseMountArgs : List String → ℕ × Option String × Bool
  | [] => (0, none, false)
  | tok :: rest =>
    let (flags, options, wait) := parseMountArgs rest
    match lookupFlag tok with
    | some f => (flags ||| f, options, wait)
    | none =>
      if tok == "wait" then (flags, options, true)
      else if rest.isEmpty then (flags, some tok, wait)
      else (flags, options, wait)

/-- Restatement of the spec's FlagTable contract, flags part: the bitwise OR
of the table entries matching the tokens (an unmatched token contributes 0). -/
def specFlags (toks : List String) : ℕ :=
  toks.foldr (fun t acc => (lookupFlag t).getD 0 ||| acc) 0

/-- Restatement of the spec's FlagTable contract, options part: the last
token, when it is unmatched and is not the literal `"wait"`; absent
otherwise. -/
def specOptions (toks : List String) : Option String :=
  match toks.getLast? with
  | none => none
  | some t => if (lookupFlag t).isNone ∧ t ≠ "wait" then some t else none

/-- Restatement of the spec's FlagTable contract, wait part: some token
equals the literal `"wait"` (which is never in the table). -/
def specWait (toks : List String) : Bool :=
  toks.any (· == "wait")

/-- Modelled from the spec: the fixed retry timeout that bounds
`wait_for_file` ("block until the resolved device path exists, bounded by a
fixed retry timeout").  The constant lives in the repository's `init.h`,
outside the sources here; its exact value is irrelevant to the claims. -/
def COMMAND_RETRY_TIMEOUT : ℕ := 5

/-- Modelled from the spec: `wait_for_file(path, timeout)` (defined in the
repository's `init/util.c`, not among the sources here) polls for the path,
blocking until it appears or the retry timeout elapses, and returns a
result (`0` if the file appeared, negative on timeout).  `appears` is the
instant at which the file appears, `none` if it never does; the second
component is the time spent blocked, never more than `timeout`. -/
def wait_for_file (appears : Option ℕ) (timeout : ℕ) : Int × ℕ :=
  match appears with
  | some t => if t ≤ timeout then (0, t) else (-1, timeout)
  | none => (-1, timeout)

/-- Externally visible events of one `do_mount` invocation, in order. -/
inductive Event where
  /-- a successful `open(2)` returning descriptor `fd` -/
  | openFd (path : String) (fd : Int)
  /-- `close(fd)` -/
  | closeFd (fd : Int)
  /-- a successful `ioctl(loopFd, LOOP_SET_FD, fd)` binding slot `slot` -/
  | setFd (slot : ℕ) (loopFd fd : Int)
  /-- `ioctl(loopFd, LOOP_CLR_FD, 0)` clearing slot `slot` -/
  | clrFd (slot : ℕ) (loopFd : Int)
  /-- a `mount(2)` syscall and its result -/
  | mountCall (src target fstype : String) (flags : ℕ) (opts : Option String) (res : Int)
  /-- a `make_ext4fs` invocation and its result -/
  | mkfs (dev target : String) (res : Int)
  /-- time spent blocked inside `wait_for_file` -/
  | waited (t : ℕ)
  /-- `usleep(usec)` -/
  | usleep (usec : ℕ)
  /-- `property_get(key, ...)` -/
  | propGet (key : String)
  /-- `property_set(key, value)` -/
  | propSet (key value : String)
deriving DecidableEq, Repr

/-- Oracle supplying the outcome of every external call a `do_mount`
invocation can make.  `mountRes k` is the result of the `k`-th `mount(2)`
syscall of the invocation (at most two occur); `inandLookup k` the result of
the `k`-th `inand_name_to_number` attempt. -/
structure World where
  /-- result of `mtd_name_to_number(source + 4)` -/
  mtdLookup : Int
  /-- result of the `k`-th `inand_name_to_number(source + 6)` attempt -/
  inandLookup : ℕ → Int
  /-- instant at which the path waited on appears (`none` = never) -/
  fileAppears : Option ℕ
  /-- fd returned by `open(source + 5, mode)`; negative = failure -/
  openBacking : Int
  /-- fd returned by `open("/dev/block/loop<n>", mode)`; negative = failure -/
  openLoop : ℕ → Int
  /-- slot `n` is blank: `ioctl(LOOP_GET_STATUS)` fails with `ENXIO` -/
  loopBlank : ℕ → Bool
  /-- `ioctl(LOOP_SET_FD)` on slot `n` succeeds -/
  loopSetFdOk : ℕ → Bool
  /-- result of the `k`-th `mount(2)` syscall -/
  mountRes : ℕ → Int
  /-- result of `make_ext4fs` -/
  mkfsRes : Int

/-- `strncmp(s, p, strlen(p)) == 0`: `s` starts with `p`.  Stated over the
character list so that concrete instances reduce by `decide`. -/
def strPrefix (p s : String) : Bool := p.data.isPrefixOf s.data

/-- `s + n` on a C string: drop the first `n` characters. -/
def strDrop (s : String) (n : ℕ) : String := ⟨s.data.drop n⟩

/-- The `for (n = 0; ; n++)` loop-device slot scan of the `loop@` branch,
starting at slot `n`, with the backing descriptor `fd` already open.  Fuel
bounds the number of iterations; `none` means the scan has not returned
within the fuel.  When opening a slot fails the source returns `-1` at once
(without closing `fd`); a blank slot that binds successfully gets the mount
attempt; otherwise the slot is closed and the scan moves on. -/
def loopScan (w : World) (system target : String) (flags : ℕ)
    (options : Option String) (fd : Int) : ℕ → ℕ → Option (Int × List Event)
  | 0, _ => none
  | fuel+1, n =>
    let tmp := "/dev/block/loop" ++ toString n
    let lfd := w.openLoop n
    if lfd < 0 then
      some (-1, [])
    else if w.loopBlank n && w.loopSetFdOk n then
      let r := w.mountRes 0
      if r < 0 then
        some (-1, [Event.openFd tmp lfd, Event.setFd n lfd fd, Event.closeFd fd,
                   Event.mountCall tmp target system flags options r,
                   Event.clrFd n lfd, Event.closeFd lfd])
      else
        some (0, [Event.openFd tmp lfd, Event.setFd n lfd fd, Event.closeFd fd,
                  Event.mountCall tmp target system flags options r,
                  Event.closeFd lfd])
    else
      match loopScan w system target flags options fd fuel (n+1) with
      | none => none
      | some (ret, evs) => some (ret, Event.openFd tmp lfd :: Event.closeFd lfd :: evs)

/-- The `do { n = inand_name_to_number(...); usleep(200000); } while (n < 0)`
poll, starting at attempt `k`.  Returns the looked-up number together with
the total number of attempts made (each attempt sleeps 200000µs); `none`
means no attempt within the fuel succeeded, so the loop is still running. -/
def inandScan (lookup : ℕ → Int) : ℕ → ℕ → Option (Int × ℕ)
  | 0, _ => none
  | fuel+1, k =>
    let n := lookup k
    if n < 0 then inandScan lookup fuel (k+1) else some (n, k+1)

/-- The tail of `do_mount`'s default branch once the device path `tmp` is
resolved: the `mount(2)` attempt, the ext4/cache format-and-retry recovery,
and the `/data` failure diagnostic; falls through to `exit_success`
(returning 0) unless the post-format re-mount fails (returning -2). -/
def mountTail (w : World) (system target tmp : String) (flags : ℕ)
    (options : Option String) (evs0 : List Event) : Int × List Event :=
  let r := w.mountRes 0
  let evs1 := evs0 ++ [Event.mountCall tmp target system flags options r]
  if r < 0 ∧ strPrefix "ext4" system ∧ strPrefix "/cache" target then
    let f := w.mkfsRes
    let r2 := w.mountRes 1
    let evs2 := evs1 ++ [Event.mkfs tmp target f,
                         Event.mountCall tmp target system flags options r2]
    if r2 ≠ 0 then (-2, evs2)
    else if r < 0 ∧ strPrefix "/data" target then
      (0, evs2 ++ [Event.propGet "ro.init.mountdatafail",
                   Event.propSet "ro.init.mountdatafail" "true"])
    else (0, evs2)
  else if r < 0 ∧ strPrefix "/data" target then
    (0, evs1 ++ [Event.propGet "ro.init.mountdatafail",
                 Event.propSet "ro.init.mountdatafail" "true"])
  else (0, evs1)

/-- Shallow embedding of `do_mount(nargs, args)` from `builtins.c`, with
`args` the full argument list (`args[0] = "mount"`, `args[1] = <type>`,
`args[2] = <device>`, `args[3] = <path>`, then flags/options).  Returns
`none` when one of the two unbounded loops has not finished within `fuel`
iterations, otherwise the return value and the event trace. -/
def doMount (w : World) (fuel : ℕ) (args : List String) :
    Option (Int × List Event) :=
  let system := args.getD 1 ""
  let source := args.getD 2 ""
  let target := args.getD 3 ""
  let pr := parseMountArgs (args.drop 4)
  let flags := pr.1
  let options := pr.2.1
  let wait := pr.2.2
  if strPrefix "mtd@" source then
    if w.mtdLookup < 0 then some (-1, [])
    else
      let tmp := "/dev/block/mtdblock" ++ toString w.mtdLookup
      let ev0 := if wait
        then [Event.waited (wait_for_file w.fileAppears COMMAND_RETRY_TIMEOUT).2]
        else []
      let r := w.mountRes 0
      let evs := ev0 ++ [Event.mountCall tmp target system flags options r]
      if r < 0 then some (-1, evs) else some (0, evs)
  else if strPrefix "ubifs" system then
    let r0 := w.mountRes 0
    let e0 := Event.mountCall source target system flags options r0
    if r0 < 0 then
      let r1 := w.mountRes 1
      let e1 := Event.mountCall source target system flags options r1
      if r1 < 0 then some (-1, [e0, e1]) else some (0, [e0, e1])
    else some (0, [e0])
  else if strPrefix "loop@" source then
    let fd := w.openBacking
    if fd < 0 then some (-1, [])
    else
      match loopScan w system target flags options fd fuel 0 with
      | none => none
      | some (ret, evs) => some (ret, Event.openFd (strDrop source 5) fd :: evs)
  else
    let ev0 := if wait
      then [Event.waited (wait_for_file w.fileAppears COMMAND_RETRY_TIMEOUT).2]
      else []
    if strPrefix "inand@" source then
      match inandScan w.inandLookup fuel 0 with
      | none => none
      | some (n, k) =>
        let tmp := "/dev/block/cardblkinand" ++ toString n
        some (mountTail w system target tmp flags options
          (ev0 ++ List.replicate k (Event.usleep 200000)))
    else
      some (mountTail w system target source flags options ev0)

/-- Outcome of the forked child as observed through `waitpid`:
`exited code` when `WIFEXITED(status)` holds (`code` is the already
8-bit-truncated `WEXITSTATUS`), `signaled` for any abnormal termination. -/
inductive ChildStatus where
  | exited (code : ℕ)
  | signaled
deriving DecidableEq, Repr

/-- Oracle for one `do_mount_all` invocation. -/
structure MountAllWorld where
  /-- `fork()` succeeded -/
  forkOk : Bool
  /-- how the child terminated -/
  child : ChildStatus

/-- Externally visible events of a `do_mount_all` invocation (parent side). -/
inductive BatchEvent where
  | propSet (key value : String)
  /-- `action_for_each_trigger(name, action_add_queue_tail)` -/
  | enqueueTrigger (name : String)
deriving DecidableEq, Repr

/-- Shallow embedding of `do_mount_all(nargs, args)` from `builtins.c`:
fork, wait for the child running `fs_mgr_mount_all`, map its exit status
`ret` (1 = encrypted, 0 = unencrypted) to property writes and the
`"nonencrypted"` trigger, and return `ret`. -/
def do_mount_all (w : MountAllWorld) (nargs : ℕ) : Int × List BatchEvent :=
  if nargs ≠ 2 then (-1, [])
  else if !w.forkOk then (-1, [])
  else
    let ret : Int := match w.child with
      | .exited c => (c : ℕ)
      | .signaled => -1
    if ret = 1 then
      (ret, [BatchEvent.propSet "ro.crypto.state" "encrypted",
             BatchEvent.propSet "vold.decrypt" "1"])
    else if ret = 0 then
      (ret, [BatchEvent.propSet "ro.crypto.state" "unencrypted",
             BatchEvent.enqueueTrigger "nonencrypted"])
    else (ret, [])

/-- Restatement of the spec's `BatchMountResult` tri-state. -/
inductive BatchMountResult where
  | Encrypted | Unencrypted | Error
deriving DecidableEq, Repr

/-- Restatement of the spec's mapping from the child's exit status to a
`BatchMountResult`: `1` → Encrypted, `0` → Unencrypted, otherwise Error. -/
def batchResult (code : ℕ) : BatchMountResult :=
  if code = 1 then BatchMountResult.Encrypted
  else if code = 0 then BatchMountResult.Unencrypted
  else BatchMountResult.Error


/-- Trace observations: does the trace contain a `make_ext4fs` invocation? -/
def hasMkfs (evs : List Event) : Bool :=
  evs.any fun e => match e with | Event.mkfs _ _ _ => true | _ => false

/-- Number of `make_ext4fs` invocations in a trace. -/
def countMkfs (evs : List Event) : ℕ :=
  evs.countP fun e => match e with | Event.mkfs _ _ _ => true | _ => false

/-- Slots successfully bound by `LOOP_SET_FD`, in trace order. -/
def setFdSlots (evs : List Event) : List ℕ :=
  evs.filterMap fun e => match e with | Event.setFd n _ _ => some n | _ => none

/-- Slots cleared by `LOOP_CLR_FD`, in trace order. -/
def clrFdSlots (evs : List Event) : List ℕ :=
  evs.filterMap fun e => match e with | Event.clrFd n _ => some n | _ => none

/-- Replay the open/close events of a trace over a multiset of live
descriptors: `openFd` adds one, `closeFd` removes one occurrence. -/
def fdState : Multiset Int → List Event → Multiset Int
  | s, [] => s
  | s, Event.openFd _ fd :: rest => fdState (fd ::ₘ s) rest
  | s, Event.closeFd fd :: rest => fdState (s.erase fd) rest
  | s, _ :: rest => fdState s rest

/-- Total time spent blocked in `wait_for_file` along a trace. -/
def waitedTime (evs : List Event) : ℕ :=
  (evs.map fun e => match e with | Event.waited t => t | _ => 0).sum

/-- A concrete oracle for witnesses and counterexamples: the first `mount(2)`
syscall fails, everything else succeeds; loop slot 0 is already configured,
all later slots are blank; the `inand` lookup never succeeds; the waited-on
path never appears. -/
def wBase : World :=
  { mtdLookup := 3
    inandLookup := fun _ => -1
    fileAppears := none
    openBacking := 7
    openLoop := fun n => 10 + n
    loopBlank := fun n => decide (n ≠ 0)
    loopSetFdOk := fun _ => true
    mountRes := fun k => if k = 0 then -1 else 0
    mkfsRes := 0 }

/-- `wBase` with every `mount(2)` call succeeding. -/
def wMountOk : World := { wBase with mountRes := fun _ => 0 }

/-- `wBase` with the `make_ext4fs` step failing. -/
def wMkfsFail : World := { wBase with mkfsRes := -1 }

/-- `wBase` with the `inand` lookup failing twice and then yielding 4, and
every mount succeeding. -/
def wInand : World :=
  { wBase with inandLookup := fun k => if k < 2 then -1 else 4
               mountRes := fun _ => 0 }

/-- `wBase` with every `open("/dev/block/loop<n>")` failing. -/
def wLoopOpenFail : World := { wBase with openLoop := fun _ => -1 }

/-- `specOptions` on a list of two or more tokens ignores the head. -/
theorem specOptions_cons_cons (a b : String) (l : List String) :
    specOptions (a :: b :: l) = specOptions (b :: l) := by
  simp [specOptions, List.getLast?_cons_cons]

/-- C6: for every trailing-token sequence given to `do_mount`, the parse
produces flags equal to the bitwise OR of the table entries matching tokens
case-sensitively; `wait` true iff some (necessarily unmatched) token equals
the literal `"wait"`; options equal to the last token when that token is
unmatched and is not `"wait"`, absent otherwise; every other unmatched
non-terminal token is silently ignored, and the parse is total — no error
is ever raised for an unknown flag. -/
theorem C6_flag_parse (toks : List String) :
    parseMountArgs toks = (specFlags toks, specOptions toks, specWait toks) := by
  induction toks with
  | nil => rfl
  | cons tok rest ih =>
    simp only [parseMountArgs, ih, specFlags, specWait, List.foldr_cons, List.any_cons]
    cases h : lookupFlag tok with
    | some f =>
      have hwne : tok ≠ "wait" := by
        intro he; subst he
        simp [lookupFlag, mount_flags] at h
      have hbeq : (tok == "wait") = false := by simpa using hwne
      simp only [h, Option.getD_some, hbeq, Bool.false_or, Prod.mk.injEq]
      refine ⟨Nat.lor_comm _ _, ?_, by trivial⟩
      cases rest with
      | nil => simp [specOptions, h]
      | cons b l => rw [specOptions_cons_cons]
    | none =>
      simp only [h, Option.getD_none, Nat.zero_or]
      by_cases hw : tok = "wait"
      · subst hw
        simp only [beq_self_eq_true, if_pos, Bool.true_or, Prod.mk.injEq]
        refine ⟨by trivial, ?_, by trivial⟩
        cases rest with
        | nil => simp [specOptions, h]
        | cons b l => rw [specOptions_cons_cons]
      · have hbeq : (tok == "wait") = false := by simpa using hw
        simp only [hbeq, Bool.false_eq_true, if_false, Bool.false_or, Prod.mk.injEq]
        cases rest with
        | nil => simp [specOptions, h, hw]
        | cons b l => simp [specOptions_cons_cons, List.isEmpty]

/-- C5: when the forked child of `do_mount_all` exits normally, exit status 1
yields the Encrypted outcome — exactly two properties published
(`ro.crypto.state=encrypted`, `vold.decrypt=1`), no trigger enqueued;
exit status 0 yields the Unencrypted outcome — exactly one property
published (`ro.crypto.state=unencrypted`) and the `"nonencrypted"` triggers
enqueued; any other exit status yields an error — a nonzero return, no
property published, no trigger enqueued. -/
theorem C5_mount_all_exit_mapping (w : MountAllWorld) (c : ℕ)
    (hfork : w.forkOk = true) (hchild : w.child = ChildStatus.exited c) :
    (batchResult c = BatchMountResult.Encrypted →
      do_mount_all w 2 =
        (1, [BatchEvent.propSet "ro.crypto.state" "encrypted",
             BatchEvent.propSet "vold.decrypt" "1"])) ∧
    (batchResult c = BatchMountResult.Unencrypted →
      do_mount_all w 2 =
        (0, [BatchEvent.propSet "ro.crypto.state" "unencrypted",
             BatchEvent.enqueueTrigger "nonencrypted"])) ∧
    (batchResult c = BatchMountResult.Error →
      do_mount_all w 2 = ((c : Int), []) ∧ (c : Int) ≠ 0 ∧ (c : Int) ≠ 1) := by
  unfold do_mount_all batchResult
  simp only [hfork, hchild]
  by_cases h1 : c = 1
  · subst h1; simp
  · by_cases h0 : c = 0
    · subst h0; simp
    · have hc1 : ((c : Int)) ≠ 1 := by
        intro he
        exact h1 (by exact_mod_cast he)
      have hc0 : ((c : Int)) ≠ 0 := by
        intro he
        exact h0 (by exact_mod_cast he)
      simp [h0, h1, hc0, hc1]

theorem C5_mount_all_exit_mapping_witness :
    do_mount_all ⟨true, ChildStatus.exited 1⟩ 2 =
        (1, [BatchEvent.propSet "ro.crypto.state" "encrypted",
             BatchEvent.propSet "vold.decrypt" "1"]) ∧
    do_mount_all ⟨true, ChildStatus.exited 0⟩ 2 =
        (0, [BatchEvent.propSet "ro.crypto.state" "unencrypted",
             BatchEvent.enqueueTrigger "nonencrypted"]) ∧
    do_mount_all ⟨true, ChildStatus.exited 5⟩ 2 = ((5 : Int), []) :=
  ⟨(C5_mount_all_exit_mapping ⟨true, ChildStatus.exited 1⟩ 1 rfl rfl).1 (by decide),
   (C5_mount_all_exit_mapping ⟨true, ChildStatus.exited 0⟩ 0 rfl rfl).2.1 (by decide),
   ((C5_mount_all_exit_mapping ⟨true, ChildStatus.exited 5⟩ 5 rfl rfl).2.2 (by decide)).1⟩

/-- `mountTail` only ever returns 0 (the `exit_success` fall-through) or -2
(the failed post-format re-mount). -/
theorem mountTail_fst (w : World) (system target tmp : String) (flags : ℕ)
    (options : Option String) (evs0 : List Event) :
    (mountTail w system target tmp flags options evs0).1 = 0 ∨
    (mountTail w system target tmp flags options evs0).1 = -2 := by
  unfold mountTail
  dsimp only
  split
  · split
    · exact Or.inr rfl
    · split
      · exact Or.inl rfl
      · exact Or.inl rfl
  · split
    · exact Or.inl rfl
    · exact Or.inl rfl

/-- `mountTail`'s return value does not depend on the events accumulated
before it runs. -/
theorem mountTail_fst_congr (w : World) (system target tmp : String) (flags : ℕ)
    (options : Option String) (evs0 evs0' : List Event) :
    (mountTail w system target tmp flags options evs0).1 =
    (mountTail w system target tmp flags options evs0').1 := by
  unfold mountTail
  dsimp only
  split
  · split
    · rfl
    · split
      · rfl
      · rfl
  · split
    · rfl
    · rfl

/-- The loop-slot scan only ever returns 0 or -1. -/
theorem loopScan_fst (w : World) (system target : String) (flags : ℕ)
    (options : Option String) (fd : Int) (fuel n : ℕ) (r : Int) (evs : List Event)
    (h : loopScan w system target flags options fd fuel n = some (r, evs)) :
    r = 0 ∨ r = -1 := by
  induction fuel generalizing n evs with
  | zero => simp [loopScan] at h
  | succ fuel ih =>
    rw [loopScan] at h
    dsimp only at h
    split at h
    · simp only [Option.some.injEq, Prod.mk.injEq] at h
      exact Or.inr h.1.symm
    · split at h
      · split at h
        · simp only [Option.some.injEq, Prod.mk.injEq] at h
          exact Or.inr h.1.symm
        · simp only [Option.some.injEq, Prod.mk.injEq] at h
          exact Or.inl h.1.symm
      · cases hrec : loopScan w system target flags options fd fuel (n + 1) with
        | none => rw [hrec] at h; exact absurd h (by simp)
        | some p =>
          obtain ⟨r', evs'⟩ := p
          rw [hrec] at h
          simp only [Option.some.injEq, Prod.mk.injEq] at h
          obtain ⟨hr, -⟩ := h
          subst hr
          exact ih (n + 1) evs' hrec

/-- Helper: a pair known to have first component 0 or -2 that equals
`(r, evs)` gives `r ≤ 0`. -/
theorem fst_le_of_pair (p : Int × List Event) (r : Int) (evs : List Event)
    (hp : p.1 = 0 ∨ p.1 = -2) (h : p = (r, evs)) : r ≤ 0 := by
  subst h
  rcases hp with hp | hp <;> simp_all

/-- `do_mount` never returns a positive value: every branch returns 0, -1
or -2. -/
theorem doMount_fst_nonpos (w : World) (fuel : ℕ) (args : List String)
    (r : Int) (evs : List Event) (h : doMount w fuel args = some (r, evs)) :
    r ≤ 0 := by
  unfold doMount at h
  dsimp only at h
  split at h
  · -- mtd@ branch
    split at h
    · simp only [Option.some.injEq, Prod.mk.injEq] at h
      obtain ⟨h1, -⟩ := h; omega
    · split at h <;>
      · simp only [Option.some.injEq, Prod.mk.injEq] at h
        obtain ⟨h1, -⟩ := h; omega
  · split at h
    · -- ubifs branch
      split at h
      · split at h <;>
        · simp only [Option.some.injEq, Prod.mk.injEq] at h
          obtain ⟨h1, -⟩ := h; omega
      · simp only [Option.some.injEq, Prod.mk.injEq] at h
        obtain ⟨h1, -⟩ := h; omega
    · split at h
      · -- loop@ branch
        split at h
        · simp only [Option.some.injEq, Prod.mk.injEq] at h
          obtain ⟨h1, -⟩ := h; omega
        · cases hrec : loopScan w (args.getD 1 "") (args.getD 3 "")
              (parseMountArgs (args.drop 4)).1 (parseMountArgs (args.drop 4)).2.1
              w.openBacking fuel 0 with
          | none => rw [hrec] at h; exact absurd h (by simp)
          | some p =>
            obtain ⟨r', evs'⟩ := p
            rw [hrec] at h
            simp only [Option.some.injEq, Prod.mk.injEq] at h
            obtain ⟨h1, -⟩ := h
            rcases loopScan_fst w _ _ _ _ _ fuel 0 r' evs' hrec with h2 | h2 <;> omega
      · -- default branch
        split at h
        · -- inand@ source
          cases hrec : inandScan w.inandLookup fuel 0 with
          | none => rw [hrec] at h; exact absurd h (by simp)
          | some p =>
            obtain ⟨n, k⟩ := p
            rw [hrec] at h
            simp only [Option.some.injEq] at h
            exact fst_le_of_pair _ r evs (mountTail_fst _ _ _ _ _ _ _) h
        · simp only [Option.some.injEq] at h
          exact fst_le_of_pair _ r evs (mountTail_fst _ _ _ _ _ _ _) h

/-- C10 counterexample: `do_mount_all` whose child exits with status 1 (the
encrypted outcome) returns 1, a positive value, refuting "no invocation
ever returns a positive value". -/
theorem C10_counterexample :
    (do_mount_all ⟨true, ChildStatus.exited 1⟩ 2).1 = 1 ∧
    ¬ (do_mount_all ⟨true, ChildStatus.exited 1⟩ 2).1 ≤ 0 := by decide

/-- C10 amended: `do_mount` returns 0 on success and a negative value
(-1 or -2) on failure, never a positive value; `do_mount_all`, however,
returns the forked child's exit status whenever the fork succeeded and the
child exited normally — a value that is positive whenever the exit status
is (in particular 1 for the encrypted outcome). -/
theorem C10_amended :
    (∀ (w : World) (fuel : ℕ) (args : List String) (r : Int) (evs : List Event),
        doMount w fuel args = some (r, evs) → r ≤ 0) ∧
    (∀ (w : MountAllWorld) (c : ℕ), w.forkOk = true →
        w.child = ChildStatus.exited c → (do_mount_all w 2).1 = (c : Int)) := by
  constructor
  · exact doMount_fst_nonpos
  · intro w c hfork hchild
    unfold do_mount_all
    simp only [hfork, hchild]
    split
    · simp at *
    · split
      · simp at *
      · split
        · rfl
        · split <;> rfl

theorem C10_amended_witness :
    ((0 : Int) ≤ 0) ∧ (do_mount_all ⟨true, ChildStatus.exited 5⟩ 2).1 = (5 : Int) :=
  ⟨C10_amended.1 wMountOk 5 ["mount", "ext4", "/dev/x", "/mnt"] 0
      [Event.mountCall "/dev/x" "/mnt" "ext4" 0 none 0] (by decide),
   C10_amended.2 ⟨true, ChildStatus.exited 5⟩ 5 rfl rfl⟩

/-- In the default branch (no `mtd@`/`ubifs`/`loop@` match) with a raw
(non-`inand@`) source, `do_mount` is exactly `mountTail` on the literal
source path. -/
theorem doMount_default_raw (w : World) (fuel : ℕ)
    (system source target : String) (rest : List String)
    (hmtd : strPrefix "mtd@" source = false)
    (hub : strPrefix "ubifs" system = false)
    (hloop : strPrefix "loop@" source = false)
    (hin : strPrefix "inand@" source = false) :
    doMount w fuel ("mount" :: system :: source :: target :: rest) =
      some (mountTail w system target source (parseMountArgs rest).1
        (parseMountArgs rest).2.1
        (if (parseMountArgs rest).2.2
         then [Event.waited (wait_for_file w.fileAppears COMMAND_RETRY_TIMEOUT).2]
         else [])) := by
  unfold doMount
  simp [hmtd, hub, hloop, hin, List.getD]

/-- In the default branch with an `inand@` source whose lookup poll finishes
within the fuel, `do_mount` is `mountTail` on the resolved
`cardblkinand` path, after `k` sleep events. -/
theorem doMount_default_inand (w : World) (fuel : ℕ)
    (system source target : String) (rest : List String) (n : Int) (k : ℕ)
    (hmtd : strPrefix "mtd@" source = false)
    (hub : strPrefix "ubifs" system = false)
    (hloop : strPrefix "loop@" source = false)
    (hin : strPrefix "inand@" source = true)
    (hscan : inandScan w.inandLookup fuel 0 = some (n, k)) :
    doMount w fuel ("mount" :: system :: source :: target :: rest) =
      some (mountTail w system target ("/dev/block/cardblkinand" ++ toString n)
        (parseMountArgs rest).1 (parseMountArgs rest).2.1
        ((if (parseMountArgs rest).2.2
          then [Event.waited (wait_for_file w.fileAppears COMMAND_RETRY_TIMEOUT).2]
          else []) ++ List.replicate k (Event.usleep 200000))) := by
  unfold doMount
  simp [hmtd, hub, hloop, hin, hscan, List.getD]

/-- In the default branch with an `inand@` source whose lookup poll has not
finished within the fuel, `do_mount` has not returned. -/
theorem doMount_default_inand_none (w : World) (fuel : ℕ)
    (system source target : String) (rest : List String)
    (hmtd : strPrefix "mtd@" source = false)
    (hub : strPrefix "ubifs" system = false)
    (hloop : strPrefix "loop@" source = false)
    (hin : strPrefix "inand@" source = true)
    (hscan : inandScan w.inandLookup fuel 0 = none) :
    doMount w fuel ("mount" :: system :: source :: target :: rest) = none := by
  unfold doMount
  simp [hmtd, hub, hloop, hin, hscan, List.getD]

/-- A target starting with `/data` cannot also start with `/cache`. -/
theorem data_not_cache (t : String) (h : strPrefix "/data" t = true) :
    strPrefix "/cache" t = false := by
  obtain ⟨l⟩ := t
  have hd : ("/data" : String).data = ['/', 'd', 'a', 't', 'a'] := rfl
  have hc : ("/cache" : String).data = ['/', 'c', 'a', 'c', 'h', 'e'] := rfl
  unfold strPrefix at h ⊢
  rw [hd] at h
  rw [hc]
  dsimp only at h ⊢
  obtain - | ⟨a, - | ⟨b, l'⟩⟩ := l
  · simp [List.isPrefixOf] at h
  · simp [List.isPrefixOf] at h
  · simp only [List.isPrefixOf, Bool.and_eq_true, beq_iff_eq] at h
    obtain ⟨ha, hb, -⟩ := h
    subst ha; subst hb
    simp [List.isPrefixOf]

/-- `mountTail` with a failed mount and a `/data`-prefixed target: the
diagnostic property is queried and set, and the result is 0. -/
theorem mountTail_data (w : World) (system target tmp : String) (flags : ℕ)
    (options : Option String) (evs0 : List Event)
    (hfail : w.mountRes 0 < 0) (hdata : strPrefix "/data" target = true) :
    mountTail w system target tmp flags options evs0 =
      (0, evs0 ++ [Event.mountCall tmp target system flags options (w.mountRes 0),
                   Event.propGet "ro.init.mountdatafail",
                   Event.propSet "ro.init.mountdatafail" "true"]) := by
  have hcache := data_not_cache target hdata
  unfold mountTail
  simp [hfail, hdata, hcache]

/-- C1 counterexample: raw source, target `/data`, `mount(2)` fails (its -1
result is recorded in the trace); `do_mount` publishes
`ro.init.mountdatafail=true` but returns 0, not the original negative
failure the claim requires. -/
theorem C1_counterexample :
    doMount wBase 5 ["mount", "ext4", "/dev/block/mmcblk0p6", "/data"] =
      some (0, [Event.mountCall "/dev/block/mmcblk0p6" "/data" "ext4" 0 none (-1),
                Event.propGet "ro.init.mountdatafail",
                Event.propSet "ro.init.mountdatafail" "true"]) ∧
    wBase.mountRes 0 < 0 := by decide

/-- C1 amended: in the default (non-`mtd@`/`ubifs`/`loop@`) branch, when the
mount syscall fails and the target is the primary data mount point, the
property `ro.init.mountdatafail` is set to `"true"` but the call returns 0
(success): the original mount failure is not propagated to the caller. -/
theorem C1_amended (w : World) (fuel : ℕ) (system source target : String)
    (rest : List String) (r : Int) (evs : List Event)
    (hmtd : strPrefix "mtd@" source = false)
    (hub : strPrefix "ubifs" system = false)
    (hloop : strPrefix "loop@" source = false)
    (hdata : strPrefix "/data" target = true)
    (hfail : w.mountRes 0 < 0)
    (h : doMount w fuel ("mount" :: system :: source :: target :: rest) =
      some (r, evs)) :
    r = 0 ∧ Event.propSet "ro.init.mountdatafail" "true" ∈ evs := by
  by_cases hin : strPrefix "inand@" source = true
  · cases hscan : inandScan w.inandLookup fuel 0 with
    | none =>
      rw [doMount_default_inand_none w fuel system source target rest
        hmtd hub hloop hin hscan] at h
      exact absurd h (by simp)
    | some p =>
      obtain ⟨n, k⟩ := p
      rw [doMount_default_inand w fuel system source target rest n k
        hmtd hub hloop hin hscan] at h
      rw [mountTail_data w system target _ _ _ _ hfail hdata] at h
      simp only [Option.some.injEq, Prod.mk.injEq] at h
      obtain ⟨h1, h2⟩ := h
      subst h2
      exact ⟨h1.symm, by simp⟩
  · have hin' : strPrefix "inand@" source = false := by simpa using hin
    rw [doMount_default_raw w fuel system source target rest
      hmtd hub hloop hin'] at h
    rw [mountTail_data w system target _ _ _ _ hfail hdata] at h
    simp only [Option.some.injEq, Prod.mk.injEq] at h
    obtain ⟨h1, h2⟩ := h
    subst h2
    exact ⟨h1.symm, by simp⟩

theorem C1_amended_witness :
    (0 : Int) = 0 ∧ Event.propSet "ro.init.mountdatafail" "true" ∈
      [Event.mountCall "/dev/block/mmcblk0p6" "/data" "ext4" 0 none (-1),
       Event.propGet "ro.init.mountdatafail",
       Event.propSet "ro.init.mountdatafail" "true"] :=
  C1_amended wBase 5 "ext4" "/dev/block/mmcblk0p6" "/data" [] 0 _
    (by decide) (by decide) (by decide) (by decide) (by decide) (by decide)

/-- Reduction of `do_mount` in the `mtd@` branch. -/
theorem doMount_mtd (w : World) (fuel : ℕ)
    (system source target : String) (rest : List String)
    (hmtd : strPrefix "mtd@" source = true) :
    doMount w fuel ("mount" :: system :: source :: target :: rest) =
      (if w.mtdLookup < 0 then some (-1, [])
       else if w.mountRes 0 < 0 then
        some (-1,
          (if (parseMountArgs rest).2.2
           then [Event.waited (wait_for_file w.fileAppears COMMAND_RETRY_TIMEOUT).2]
           else []) ++
          [Event.mountCall ("/dev/block/mtdblock" ++ toString w.mtdLookup) target
            system (parseMountArgs rest).1 (parseMountArgs rest).2.1 (w.mountRes 0)])
       else
        some (0,
          (if (parseMountArgs rest).2.2
           then [Event.waited (wait_for_file w.fileAppears COMMAND_RETRY_TIMEOUT).2]
           else []) ++
          [Event.mountCall ("/dev/block/mtdblock" ++ toString w.mtdLookup) target
            system (parseMountArgs rest).1 (parseMountArgs rest).2.1
            (w.mountRes 0)])) := by
  unfold doMount
  simp [hmtd, List.getD]

/-- Reduction of `do_mount` in the `ubifs` branch (mount, then one retry). -/
theorem doMount_ubifs (w : World) (fuel : ℕ)
    (system source target : String) (rest : List String)
    (hmtd : strPrefix "mtd@" source = false)
    (hub : strPrefix "ubifs" system = true) :
    doMount w fuel ("mount" :: system :: source :: target :: rest) =
      (if w.mountRes 0 < 0 then
        (if w.mountRes 1 < 0 then
          some (-1,
            [Event.mountCall source target system (parseMountArgs rest).1
              (parseMountArgs rest).2.1 (w.mountRes 0),
             Event.mountCall source target system (parseMountArgs rest).1
              (parseMountArgs rest).2.1 (w.mountRes 1)])
         else
          some (0,
            [Event.mountCall source target system (parseMountArgs rest).1
              (parseMountArgs rest).2.1 (w.mountRes 0),
             Event.mountCall source target system (parseMountArgs rest).1
              (parseMountArgs rest).2.1 (w.mountRes 1)]))
       else
        some (0,
          [Event.mountCall source target system (parseMountArgs rest).1
            (parseMountArgs rest).2.1 (w.mountRes 0)])) := by
  unfold doMount
  simp [hmtd, hub, List.getD]

/-- Reduction of `do_mount` in the `loop@` branch. -/
theorem doMount_loop (w : World) (fuel : ℕ)
    (system source target : String) (rest : List String)
    (hmtd : strPrefix "mtd@" source = false)
    (hub : strPrefix "ubifs" system = false)
    (hloop : strPrefix "loop@" source = true) :
    doMount w fuel ("mount" :: system :: source :: target :: rest) =
      (if w.openBacking < 0 then some (-1, [])
       else
        match loopScan w system target (parseMountArgs rest).1
            (parseMountArgs rest).2.1 w.openBacking fuel 0 with
        | none => none
        | some (ret, evs) =>
          some (ret, Event.openFd (strDrop source 5) w.openBacking :: evs)) := by
  unfold doMount
  simp [hmtd, hub, hloop, List.getD]

/-- A loop-slot scan trace never contains a `make_ext4fs` invocation. -/
theorem loopScan_no_mkfs (w : World) (system target : String) (flags : ℕ)
    (options : Option String) (fd : Int) (fuel n : ℕ) (r : Int) (evs : List Event)
    (h : loopScan w system target flags options fd fuel n = some (r, evs)) :
    hasMkfs evs = false := by
  induction fuel generalizing n r evs with
  | zero => simp [loopScan] at h
  | succ fuel ih =>
    rw [loopScan] at h
    dsimp only at h
    split at h
    · simp only [Option.some.injEq, Prod.mk.injEq] at h
      obtain ⟨-, h2⟩ := h
      subst h2; rfl
    · split at h
      · split at h <;>
        · simp only [Option.some.injEq, Prod.mk.injEq] at h
          obtain ⟨-, h2⟩ := h
          subst h2; rfl
      · cases hrec : loopScan w system target flags options fd fuel (n + 1) with
        | none => rw [hrec] at h; exact absurd h (by simp)
        | some p =>
          obtain ⟨r', evs'⟩ := p
          rw [hrec] at h
          simp only [Option.some.injEq, Prod.mk.injEq] at h
          obtain ⟨-, h2⟩ := h
          subst h2
          simpa [hasMkfs] using ih (n + 1) r' evs' hrec

/-- `hasMkfs` of the result trace of `mountTail`, over a mkfs-free prefix:
true exactly when the first mount failed, the type begins with `ext4` and
the target begins with `/cache`. -/
theorem mountTail_hasMkfs (w : World) (system target tmp : String) (flags : ℕ)
    (options : Option String) (evs0 : List Event) (h0 : hasMkfs evs0 = false) :
    (hasMkfs (mountTail w system target tmp flags options evs0).2 = true ↔
      (w.mountRes 0 < 0 ∧ strPrefix "ext4" system = true ∧
       strPrefix "/cache" target = true)) := by
  unfold mountTail
  dsimp only
  split
  · rename_i hc
    split
    · simp only [hasMkfs, List.any_append] at *
      simp [h0, hc, hasMkfs]
    · split <;>
      · simp only [hasMkfs, List.any_append] at *
        simp [h0, hc, hasMkfs]
  · rename_i hc
    split <;>
    · simp only [hasMkfs, List.any_append] at *
      simp only [h0]
      exact iff_of_false (by simp [hasMkfs]) hc

/-- C3 counterexample: a mount failure with filesystem type `"ext4x"`
(not exactly `"ext4"`, only sharing its first four bytes) and target
`/cache` still triggers the format-and-retry recovery — `make_ext4fs`
appears in the trace — because the source compares only prefixes
(`strncmp(..., 4)` / `strncmp(..., 6)`). -/
theorem C3_counterexample :
    doMount wBase 5 ["mount", "ext4x", "/dev/block/x", "/cache"] =
      some (0, [Event.mountCall "/dev/block/x" "/cache" "ext4x" 0 none (-1),
                Event.mkfs "/dev/block/x" "/cache" 0,
                Event.mountCall "/dev/block/x" "/cache" "ext4x" 0 none 0]) ∧
    "ext4x" ≠ "ext4" := by decide

/-- C3 amended: for every `do_mount` invocation, the format-and-retry
recovery (a `make_ext4fs` invocation in the trace) runs if and only if the
invocation takes the default (non-`mtd@`, non-`ubifs`, non-`loop@`) branch,
its mount attempt fails, the filesystem type begins with the four bytes
`ext4`, and the target begins with the six bytes `/cache` (prefix matches,
not exact equality). -/
theorem C3_amended (w : World) (fuel : ℕ) (system source target : String)
    (rest : List String) (r : Int) (evs : List Event)
    (h : doMount w fuel ("mount" :: system :: source :: target :: rest) =
      some (r, evs)) :
    hasMkfs evs = true ↔
      (strPrefix "mtd@" source = false ∧ strPrefix "ubifs" system = false ∧
       strPrefix "loop@" source = false ∧ w.mountRes 0 < 0 ∧
       strPrefix "ext4" system = true ∧ strPrefix "/cache" target = true) := by
  by_cases hmtd : strPrefix "mtd@" source = true
  · rw [doMount_mtd w fuel system source target rest hmtd] at h
    have hno : hasMkfs evs = false := by
      split at h
      · simp only [Option.some.injEq, Prod.mk.injEq] at h
        obtain ⟨-, h2⟩ := h; subst h2; rfl
      · split at h <;>
        · simp only [Option.some.injEq, Prod.mk.injEq] at h
          obtain ⟨-, h2⟩ := h
          subst h2
          cases (parseMountArgs rest).2.2 <;> simp [hasMkfs]
    simp [hno, hmtd]
  · have hmtd' : strPrefix "mtd@" source = false := by simpa using hmtd
    by_cases hub : strPrefix "ubifs" system = true
    · rw [doMount_ubifs w fuel system source target rest hmtd' hub] at h
      have hno : hasMkfs evs = false := by
        split at h
        · split at h <;>
          · simp only [Option.some.injEq, Prod.mk.injEq] at h
            obtain ⟨-, h2⟩ := h; subst h2; simp [hasMkfs]
        · simp only [Option.some.injEq, Prod.mk.injEq] at h
          obtain ⟨-, h2⟩ := h; subst h2; simp [hasMkfs]
      simp [hno, hub]
    · have hub' : strPrefix "ubifs" system = false := by simpa using hub
      by_cases hloop : strPrefix "loop@" source = true
      · rw [doMount_loop w fuel system source target rest hmtd' hub' hloop] at h
        have hno : hasMkfs evs = false := by
          split at h
          · simp only [Option.some.injEq, Prod.mk.injEq] at h
            obtain ⟨-, h2⟩ := h; subst h2; rfl
          · cases hrec : loopScan w system target (parseMountArgs rest).1
                (parseMountArgs rest).2.1 w.openBacking fuel 0 with
            | none => rw [hrec] at h; exact absurd h (by simp)
            | some p =>
              obtain ⟨r', evs'⟩ := p
              rw [hrec] at h
              simp only [Option.some.injEq, Prod.mk.injEq] at h
              obtain ⟨-, h2⟩ := h
              subst h2
              simpa [hasMkfs] using loopScan_no_mkfs w system target _ _ _ fuel 0 r' evs' hrec
        simp [hno, hloop]
      · have hloop' : strPrefix "loop@" source = false := by simpa using hloop
        have hev0 : hasMkfs (if (parseMountArgs rest).2.2
            then [Event.waited (wait_for_file w.fileAppears COMMAND_RETRY_TIMEOUT).2]
            else []) = false := by
          cases (parseMountArgs rest).2.2 <;> simp [hasMkfs]
        by_cases hin : strPrefix "inand@" source = true
        · cases hscan : inandScan w.inandLookup fuel 0 with
          | none =>
            rw [doMount_default_inand_none w fuel system source target rest
              hmtd' hub' hloop' hin hscan] at h
            exact absurd h (by simp)
          | some p =>
            obtain ⟨n, k⟩ := p
            rw [doMount_default_inand w fuel system source target rest n k
              hmtd' hub' hloop' hin hscan] at h
            have h0 : hasMkfs ((if (parseMountArgs rest).2.2
                then [Event.waited (wait_for_file w.fileAppears COMMAND_RETRY_TIMEOUT).2]
                else []) ++ List.replicate k (Event.usleep 200000)) = false := by
              simp only [hasMkfs, List.any_append] at *
              simp only [hev0]
              simp [List.any_eq_true, List.mem_replicate]
            have := mountTail_hasMkfs w system target
              ("/dev/block/cardblkinand" ++ toString n)
              (parseMountArgs rest).1 (parseMountArgs rest).2.1 _ h0
            simp only [Option.some.injEq] at h
            rw [h] at this
            simpa [hmtd', hub', hloop'] using this
        · have hin' : strPrefix "inand@" source = false := by simpa using hin
          rw [doMount_default_raw w fuel system source target rest
            hmtd' hub' hloop' hin'] at h
          have := mountTail_hasMkfs w system target source
            (parseMountArgs rest).1 (parseMountArgs rest).2.1 _ hev0
          simp only [Option.some.injEq] at h
          rw [h] at this
          simpa [hmtd', hub', hloop'] using this

theorem C3_amended_witness :
    hasMkfs [Event.mountCall "/dev/block/x" "/cache" "ext4" 0 none (-1),
             Event.mkfs "/dev/block/x" "/cache" 0,
             Event.mountCall "/dev/block/x" "/cache" "ext4" 0 none 0] = true ↔
      (strPrefix "mtd@" "/dev/block/x" = false ∧
       strPrefix "ubifs" "ext4" = false ∧
       strPrefix "loop@" "/dev/block/x" = false ∧ wBase.mountRes 0 < 0 ∧
       strPrefix "ext4" "ext4" = true ∧ strPrefix "/cache" "/cache" = true) :=
  C3_amended wBase 5 "ext4" "/dev/block/x" "/cache" [] 0 _ (by decide)

/-- A target starting with `/cache` cannot also start with `/data`. -/
theorem cache_not_data (t : String) (h : strPrefix "/cache" t = true) :
    strPrefix "/data" t = false := by
  obtain ⟨l⟩ := t
  have hd : ("/data" : String).data = ['/', 'd', 'a', 't', 'a'] := rfl
  have hc : ("/cache" : String).data = ['/', 'c', 'a', 'c', 'h', 'e'] := rfl
  unfold strPrefix at h ⊢
  rw [hc] at h
  rw [hd]
  dsimp only at h ⊢
  obtain - | ⟨a, - | ⟨b, l'⟩⟩ := l
  · simp [List.isPrefixOf] at h
  · simp [List.isPrefixOf] at h
  · simp only [List.isPrefixOf, Bool.and_eq_true, beq_iff_eq] at h
    obtain ⟨ha, hb, -⟩ := h
    subst ha; subst hb
    simp [List.isPrefixOf]

/-- `mountTail` in the ext4/cache recovery case: `make_ext4fs` and the
re-mount always both run (a creation failure alone is only logged), and the
result is -2 exactly when the re-mount fails, 0 otherwise. -/
theorem mountTail_cache (w : World) (system target tmp : String) (flags : ℕ)
    (options : Option String) (evs0 : List Event)
    (hfail : w.mountRes 0 < 0)
    (hext4 : strPrefix "ext4" system = true)
    (hcache : strPrefix "/cache" target = true) :
    mountTail w system target tmp flags options evs0 =
      (if w.mountRes 1 ≠ 0 then (-2 : Int) else 0,
       evs0 ++ [Event.mountCall tmp target system flags options (w.mountRes 0),
                Event.mkfs tmp target w.mkfsRes,
                Event.mountCall tmp target system flags options (w.mountRes 1)]) := by
  have hdata := cache_not_data target hcache
  unfold mountTail
  simp only [hfail, hext4, hcache, hdata, and_true, true_and, if_true,
    Bool.false_eq_true, and_false, if_false]
  split
  · simp
  · simp

/-- C4 counterexample: initial mount fails on ext4 + `/cache`, the
`make_ext4fs` step fails (result -1 recorded in the trace), yet because the
re-mount then succeeds the call returns 0 — a creation failure is not a
hard error for the call, contrary to the claim. -/
theorem C4_counterexample :
    doMount wMkfsFail 5 ["mount", "ext4", "/dev/block/x", "/cache"] =
      some (0, [Event.mountCall "/dev/block/x" "/cache" "ext4" 0 none (-1),
                Event.mkfs "/dev/block/x" "/cache" (-1),
                Event.mountCall "/dev/block/x" "/cache" "ext4" 0 none 0]) ∧
    wMkfsFail.mkfsRes ≠ 0 := by decide

/-- C4 amended: whenever format recovery runs in `do_mount` (default branch,
failed mount, `ext4`-prefixed type, `/cache`-prefixed target), the
filesystem-creation routine is invoked exactly once, a failure of the
subsequent mount retry makes the whole call return the hard error -2, and
if the retry succeeds the call returns 0 — regardless of whether the
creation step itself failed (its failure is logged but does not by itself
fail the call). -/
theorem C4_amended (w : World) (fuel : ℕ) (system source target : String)
    (rest : List String) (r : Int) (evs : List Event)
    (hmtd : strPrefix "mtd@" source = false)
    (hub : strPrefix "ubifs" system = false)
    (hloop : strPrefix "loop@" source = false)
    (hfail : w.mountRes 0 < 0)
    (hext4 : strPrefix "ext4" system = true)
    (hcache : strPrefix "/cache" target = true)
    (h : doMount w fuel ("mount" :: system :: source :: target :: rest) =
      some (r, evs)) :
    countMkfs evs = 1 ∧ (w.mountRes 1 ≠ 0 → r = -2) ∧
      (w.mountRes 1 = 0 → r = 0) := by
  have hfin : ∀ (tmp : String) (evs0 : List Event), countMkfs evs0 = 0 →
      mountTail w system target tmp (parseMountArgs rest).1
        (parseMountArgs rest).2.1 evs0 = (r, evs) →
      countMkfs evs = 1 ∧ (w.mountRes 1 ≠ 0 → r = -2) ∧
        (w.mountRes 1 = 0 → r = 0) := by
    intro tmp evs0 h0 hmt
    rw [mountTail_cache w system target tmp _ _ evs0 hfail hext4 hcache] at hmt
    simp only [Prod.mk.injEq] at hmt
    obtain ⟨h1, h2⟩ := hmt
    subst h2
    refine ⟨?_, ?_, ?_⟩
    · simp only [countMkfs, List.countP_append] at h0 ⊢
      rw [h0]
      rfl
    · intro hr2
      rw [if_pos hr2] at h1
      exact h1.symm
    · intro hr2
      rw [if_neg (by simp [hr2])] at h1
      exact h1.symm
  have hev0 : countMkfs (if (parseMountArgs rest).2.2
      then [Event.waited (wait_for_file w.fileAppears COMMAND_RETRY_TIMEOUT).2]
      else []) = 0 := by
    cases (parseMountArgs rest).2.2 <;> simp [countMkfs]
  by_cases hin : strPrefix "inand@" source = true
  · cases hscan : inandScan w.inandLookup fuel 0 with
    | none =>
      rw [doMount_default_inand_none w fuel system source target rest
        hmtd hub hloop hin hscan] at h
      exact absurd h (by simp)
    | some p =>
      obtain ⟨n, k⟩ := p
      rw [doMount_default_inand w fuel system source target rest n k
        hmtd hub hloop hin hscan] at h
      simp only [Option.some.injEq] at h
      refine hfin _ _ ?_ h
      simp only [countMkfs, List.countP_append] at hev0 ⊢
      simp only [hev0]
      simp [List.countP_eq_zero, List.mem_replicate]
  · have hin' : strPrefix "inand@" source = false := by simpa using hin
    rw [doMount_default_raw w fuel system source target rest
      hmtd hub hloop hin'] at h
    simp only [Option.some.injEq] at h
    exact hfin _ _ hev0 h

theorem C4_amended_witness :
    countMkfs [Event.mountCall "/dev/block/x" "/cache" "ext4" 0 none (-1),
               Event.mkfs "/dev/block/x" "/cache" 0,
               Event.mountCall "/dev/block/x" "/cache" "ext4" 0 none 0] = 1 ∧
    (wBase.mountRes 1 ≠ 0 → (0 : Int) = -2) ∧
    (wBase.mountRes 1 = 0 → (0 : Int) = 0) :=
  C4_amended wBase 5 "ext4" "/dev/block/x" "/cache" [] 0 _
    (by decide) (by decide) (by decide) (by decide) (by decide) (by decide)
    (by decide)

/-- The time spent blocked in `wait_for_file` never exceeds the timeout. -/
theorem wait_for_file_snd_le (a : Option ℕ) (t : ℕ) :
    (wait_for_file a t).2 ≤ t := by
  unfold wait_for_file
  cases a with
  | none => exact le_refl t
  | some u =>
    dsimp only
    split
    · simpa using ‹u ≤ t›
    · exact le_refl t

theorem waitedTime_append (l1 l2 : List Event) :
    waitedTime (l1 ++ l2) = waitedTime l1 + waitedTime l2 := by
  simp [waitedTime]

/-- A loop-slot scan trace spends no time in `wait_for_file`. -/
theorem loopScan_waitedTime (w : World) (system target : String) (flags : ℕ)
    (options : Option String) (fd : Int) (fuel n : ℕ) (r : Int) (evs : List Event)
    (h : loopScan w system target flags options fd fuel n = some (r, evs)) :
    waitedTime evs = 0 := by
  induction fuel generalizing n r evs with
  | zero => simp [loopScan] at h
  | succ fuel ih =>
    rw [loopScan] at h
    dsimp only at h
    split at h
    · simp only [Option.some.injEq, Prod.mk.injEq] at h
      obtain ⟨-, h2⟩ := h; subst h2; rfl
    · split at h
      · split at h <;>
        · simp only [Option.some.injEq, Prod.mk.injEq] at h
          obtain ⟨-, h2⟩ := h; subst h2; rfl
      · cases hrec : loopScan w system target flags options fd fuel (n + 1) with
        | none => rw [hrec] at h; exact absurd h (by simp)
        | some p =>
          obtain ⟨r', evs'⟩ := p
          rw [hrec] at h
          simp only [Option.some.injEq, Prod.mk.injEq] at h
          obtain ⟨-, h2⟩ := h
          subst h2
          simpa [waitedTime] using ih (n + 1) r' evs' hrec

/-- `mountTail` adds no `wait_for_file` blocking to its input trace. -/
theorem mountTail_waitedTime (w : World) (system target tmp : String)
    (flags : ℕ) (options : Option String) (evs0 : List Event) :
    waitedTime (mountTail w system target tmp flags options evs0).2 =
      waitedTime evs0 := by
  unfold mountTail
  dsimp only
  split
  · split
    · simp [waitedTime]
    · split <;> simp [waitedTime]
  · split <;> simp [waitedTime]

/-- The loop-slot scan does not depend on when the waited-on file appears. -/
theorem loopScan_fileAppears (w : World) (a : Option ℕ) (system target : String)
    (flags : ℕ) (options : Option String) (fd : Int) (fuel : ℕ) :
    ∀ n, loopScan { w with fileAppears := a } system target flags options fd fuel n =
      loopScan w system target flags options fd fuel n := by
  induction fuel with
  | zero => intro n; rfl
  | succ fuel ih =>
    intro n
    rw [loopScan, loopScan]
    dsimp only
    rw [ih (n + 1)]

/-- `mountTail` does not depend on when the waited-on file appears. -/
theorem mountTail_fileAppears (w : World) (a : Option ℕ)
    (system target tmp : String) (flags : ℕ) (options : Option String)
    (evs0 : List Event) :
    mountTail { w with fileAppears := a } system target tmp flags options evs0 =
      mountTail w system target tmp flags options evs0 := rfl

/-- The return value of `do_mount` does not depend on when (or whether) the
waited-on device path appears: the result of `wait_for_file` is discarded. -/
theorem doMount_fst_fileAppears (w : World) (a : Option ℕ) (fuel : ℕ)
    (args : List String) :
    (doMount { w with fileAppears := a } fuel args).map Prod.fst =
      (doMount w fuel args).map Prod.fst := by
  unfold doMount
  dsimp only
  split
  · split
    · rfl
    · split <;> simp
  · split
    · split
      · split <;> simp
      · simp
    · split
      · split
        · simp
        · rw [loopScan_fileAppears w a]
      · split
        · cases hrec : inandScan w.inandLookup fuel 0 with
          | none => simp
          | some p =>
            obtain ⟨n, k⟩ := p
            simp only [Option.map_some']
            rw [mountTail_fileAppears w a]
            exact congrArg some (mountTail_fst_congr _ _ _ _ _ _ _ _)
        · simp only [Option.map_some']
          rw [mountTail_fileAppears w a]
          exact congrArg some (mountTail_fst_congr _ _ _ _ _ _ _ _)

/-- C2 counterexample: `wait` requested, the device path never appears
(`fileAppears = none`), yet `do_mount` does not return a timeout failure —
`wait_for_file`'s result is discarded, the mount is attempted anyway, and
the call returns 0. -/
theorem C2_counterexample :
    wMountOk.fileAppears = none ∧
    doMount wMountOk 5 ["mount", "ext4", "/dev/x", "/mnt", "wait"] =
      some (0, [Event.waited COMMAND_RETRY_TIMEOUT,
                Event.mountCall "/dev/x" "/mnt" "ext4" 0 none 0]) := by decide

/-- C2 amended: the wait is bounded — a `do_mount` invocation never blocks
in `wait_for_file` longer than the retry timeout, so it cannot hang there
indefinitely — but timing out is not a hard error: the wait's result is
discarded and the call proceeds to the mount attempt, so the return value
is exactly what it would have been had the device path appeared at any
other time (or never). -/
theorem C2_amended (w : World) (a : Option ℕ) (fuel : ℕ)
    (system source target : String) (rest : List String)
    (r : Int) (evs : List Event)
    (h : doMount w fuel ("mount" :: system :: source :: target :: rest) =
      some (r, evs)) :
    waitedTime evs ≤ COMMAND_RETRY_TIMEOUT ∧
    (doMount { w with fileAppears := a } fuel
        ("mount" :: system :: source :: target :: rest)).map Prod.fst =
      some r := by
  constructor
  · have hbound : ∀ c : Bool, waitedTime (if c
        then [Event.waited (wait_for_file w.fileAppears COMMAND_RETRY_TIMEOUT).2]
        else []) ≤ COMMAND_RETRY_TIMEOUT := by
      intro c
      cases c
      · simp [waitedTime]
      · simpa [waitedTime] using wait_for_file_snd_le w.fileAppears _
    by_cases hmtd : strPrefix "mtd@" source = true
    · rw [doMount_mtd w fuel system source target rest hmtd] at h
      split at h
      · simp only [Option.some.injEq, Prod.mk.injEq] at h
        obtain ⟨-, h2⟩ := h; subst h2; simp [waitedTime]
      · split at h <;>
        · simp only [Option.some.injEq, Prod.mk.injEq] at h
          obtain ⟨-, h2⟩ := h
          subst h2
          rw [waitedTime_append]
          simpa [waitedTime] using hbound (parseMountArgs rest).2.2
    · have hmtd' : strPrefix "mtd@" source = false := by simpa using hmtd
      by_cases hub : strPrefix "ubifs" system = true
      · rw [doMount_ubifs w fuel system source target rest hmtd' hub] at h
        split at h
        · split at h <;>
          · simp only [Option.some.injEq, Prod.mk.injEq] at h
            obtain ⟨-, h2⟩ := h; subst h2; simp [waitedTime]
        · simp only [Option.some.injEq, Prod.mk.injEq] at h
          obtain ⟨-, h2⟩ := h; subst h2; simp [waitedTime]
      · have hub' : strPrefix "ubifs" system = false := by simpa using hub
        by_cases hloop : strPrefix "loop@" source = true
        · rw [doMount_loop w fuel system source target rest hmtd' hub' hloop] at h
          split at h
          · simp only [Option.some.injEq, Prod.mk.injEq] at h
            obtain ⟨-, h2⟩ := h; subst h2; simp [waitedTime]
          · cases hrec : loopScan w system target (parseMountArgs rest).1
                (parseMountArgs rest).2.1 w.openBacking fuel 0 with
            | none => rw [hrec] at h; exact absurd h (by simp)
            | some p =>
              obtain ⟨r', evs'⟩ := p
              rw [hrec] at h
              simp only [Option.some.injEq, Prod.mk.injEq] at h
              obtain ⟨-, h2⟩ := h
              subst h2
              have := loopScan_waitedTime w system target _ _ _ fuel 0 r' evs' hrec
              simp [waitedTime] at this ⊢
              simp [this]
        · have hloop' : strPrefix "loop@" source = false := by simpa using hloop
          by_cases hin : strPrefix "inand@" source = true
          · cases hscan : inandScan w.inandLookup fuel 0 with
            | none =>
              rw [doMount_default_inand_none w fuel system source target rest
                hmtd' hub' hloop' hin hscan] at h
              exact absurd h (by simp)
            | some p =>
              obtain ⟨n, k⟩ := p
              rw [doMount_default_inand w fuel system source target rest n k
                hmtd' hub' hloop' hin hscan] at h
              simp only [Option.some.injEq] at h
              have hw := mountTail_waitedTime w system target
                ("/dev/block/cardblkinand" ++ toString n)
                (parseMountArgs rest).1 (parseMountArgs rest).2.1
                ((if (parseMountArgs rest).2.2
                  then [Event.waited
                    (wait_for_file w.fileAppears COMMAND_RETRY_TIMEOUT).2]
                  else []) ++ List.replicate k (Event.usleep 200000))
              rw [h] at hw
              dsimp only at hw
              rw [hw, waitedTime_append]
              have hrep : waitedTime (List.replicate k (Event.usleep 200000)) = 0 := by
                induction k with
                | zero => rfl
                | succ k ihk => simp [waitedTime, List.replicate] at ihk ⊢
              rw [hrep]
              simpa using hbound (parseMountArgs rest).2.2
          · have hin' : strPrefix "inand@" source = false := by simpa using hin
            rw [doMount_default_raw w fuel system source target rest
              hmtd' hub' hloop' hin'] at h
            simp only [Option.some.injEq] at h
            have hw := mountTail_waitedTime w system target source
              (parseMountArgs rest).1 (parseMountArgs rest).2.1
              (if (parseMountArgs rest).2.2
               then [Event.waited
                 (wait_for_file w.fileAppears COMMAND_RETRY_TIMEOUT).2]
               else [])
            rw [h] at hw
            dsimp only at hw
            rw [hw]
            exact hbound (parseMountArgs rest).2.2
  · rw [doMount_fst_fileAppears w a fuel
      ("mount" :: system :: source :: target :: rest), h]
    rfl

theorem C2_amended_witness :
    waitedTime [Event.waited COMMAND_RETRY_TIMEOUT,
                Event.mountCall "/dev/x" "/mnt" "ext4" 0 none 0] ≤
      COMMAND_RETRY_TIMEOUT ∧
    (doMount { wMountOk with fileAppears := some 0 } 5
        ["mount", "ext4", "/dev/x", "/mnt", "wait"]).map Prod.fst =
      some 0 :=
  C2_amended wMountOk (some 0) 5 "ext4" "/dev/x" "/mnt" ["wait"] 0 _ (by decide)

/-- If every `inand` lookup attempt fails, the poll never finishes,
whatever the fuel and starting attempt. -/
theorem inandScan_none (lookup : ℕ → Int) (hall : ∀ k, lookup k < 0) :
    ∀ fuel st, inandScan lookup fuel st = none := by
  intro fuel
  induction fuel with
  | zero => intro st; rfl
  | succ fuel ih =>
    intro st
    rw [inandScan]
    rw [if_pos (hall st)]
    exact ih (st + 1)

/-- If attempt `j` is the first to succeed, the poll returns its value after
exactly `j + 1` attempts, given enough fuel. -/
theorem inandScan_first_success (lookup : ℕ → Int) (j : ℕ)
    (hj : ¬ lookup j < 0) (hbefore : ∀ k, k < j → lookup k < 0) :
    ∀ fuel st, st ≤ j → j - st < fuel →
      inandScan lookup fuel st = some (lookup j, j + 1) := by
  intro fuel
  induction fuel with
  | zero => intro st h1 h2; omega
  | succ fuel ih =>
    intro st h1 h2
    rw [inandScan]
    by_cases hst : st = j
    · subst hst
      rw [if_neg hj]
    · rw [if_pos (hbefore st (by omega))]
      exact ih (st + 1) (by omega) (by omega)

/-- The first `mount(2)` call is always recorded in `mountTail`'s trace. -/
theorem mountTail_mountCall_mem (w : World) (system target tmp : String)
    (flags : ℕ) (options : Option String) (evs0 : List Event) :
    Event.mountCall tmp target system flags options (w.mountRes 0) ∈
      (mountTail w system target tmp flags options evs0).2 := by
  simp only [mountTail]
  split
  · split
    · simp
    · split <;> simp
  · split <;> simp

/-- `mountTail` adds no `usleep` events to its input trace. -/
theorem mountTail_usleep_count (w : World) (system target tmp : String)
    (flags : ℕ) (options : Option String) (evs0 : List Event) :
    List.count (Event.usleep 200000)
        (mountTail w system target tmp flags options evs0).2 =
      List.count (Event.usleep 200000) evs0 := by
  simp only [mountTail]
  split
  · split
    · simp [List.count_append, List.count_cons]
    · split <;> simp [List.count_append, List.count_cons]
  · split <;> simp [List.count_append, List.count_cons]

/-- C7: for a `do_mount` invocation with an `inand@` source (default
branch), the label lookup is retried forever with a 200000µs sleep after
every attempt: if every attempt fails the call never returns, however much
fuel it is given; and if attempt `j` is the first to yield an index, the
call goes on to mount `/dev/block/cardblkinand<N>` with `N` the looked-up
index, having slept exactly `j + 1` times. -/
theorem C7_inand_poll (w : World) (system source target : String)
    (rest : List String)
    (hmtd : strPrefix "mtd@" source = false)
    (hub : strPrefix "ubifs" system = false)
    (hloop : strPrefix "loop@" source = false)
    (hin : strPrefix "inand@" source = true) :
    ((∀ k, w.inandLookup k < 0) → ∀ fuel,
        doMount w fuel ("mount" :: system :: source :: target :: rest) = none) ∧
    (∀ j : ℕ, (∀ k, k < j → w.inandLookup k < 0) → ¬ w.inandLookup j < 0 →
      ∀ fuel, j < fuel →
        ∃ r evs,
          doMount w fuel ("mount" :: system :: source :: target :: rest) =
            some (r, evs) ∧
          Event.mountCall ("/dev/block/cardblkinand" ++ toString (w.inandLookup j))
            target system (parseMountArgs rest).1 (parseMountArgs rest).2.1
            (w.mountRes 0) ∈ evs ∧
          List.count (Event.usleep 200000) evs = j + 1) := by
  constructor
  · intro hall fuel
    exact doMount_default_inand_none w fuel system source target rest
      hmtd hub hloop hin (inandScan_none w.inandLookup hall fuel 0)
  · intro j hbefore hj fuel hfuel
    have hscan := inandScan_first_success w.inandLookup j hj hbefore fuel 0
      (by omega) (by omega)
    rw [doMount_default_inand w fuel system source target rest
      (w.inandLookup j) (j + 1) hmtd hub hloop hin hscan]
    refine ⟨(mountTail w system target
        ("/dev/block/cardblkinand" ++ toString (w.inandLookup j))
        (parseMountArgs rest).1 (parseMountArgs rest).2.1
        ((if (parseMountArgs rest).2.2
          then [Event.waited (wait_for_file w.fileAppears COMMAND_RETRY_TIMEOUT).2]
          else []) ++ List.replicate (j + 1) (Event.usleep 200000))).1,
      (mountTail w system target
        ("/dev/block/cardblkinand" ++ toString (w.inandLookup j))
        (parseMountArgs rest).1 (parseMountArgs rest).2.1
        ((if (parseMountArgs rest).2.2
          then [Event.waited (wait_for_file w.fileAppears COMMAND_RETRY_TIMEOUT).2]
          else []) ++ List.replicate (j + 1) (Event.usleep 200000))).2,
      congrArg some Prod.mk.eta.symm,
      mountTail_mountCall_mem w system target _ _ _ _, ?_⟩
    rw [mountTail_usleep_count]
    rw [List.count_append]
    have h1 : List.count (Event.usleep 200000)
        (if (parseMountArgs rest).2.2
         then [Event.waited (wait_for_file w.fileAppears COMMAND_RETRY_TIMEOUT).2]
         else []) = 0 := by
      cases (parseMountArgs rest).2.2 <;> simp [List.count_cons]
    rw [h1, List.count_replicate_self]
    omega

theorem C7_inand_poll_witness :
    doMount wBase 7 ["mount", "ext4", "inand@lbl", "/mnt"] = none ∧
    (∃ r evs,
        doMount wInand 5 ["mount", "ext4", "inand@lbl", "/mnt"] = some (r, evs) ∧
        Event.mountCall ("/dev/block/cardblkinand" ++ toString (wInand.inandLookup 2))
          "/mnt" "ext4" (parseMountArgs ([] : List String)).1
          (parseMountArgs ([] : List String)).2.1 (wInand.mountRes 0) ∈ evs ∧
        List.count (Event.usleep 200000) evs = 2 + 1) :=
  ⟨(C7_inand_poll wBase "ext4" "inand@lbl" "/mnt" []
      (by decide) (by decide) (by decide) (by decide)).1
      (fun k => by show (-1 : Int) < 0; decide) 7,
   (C7_inand_poll wInand "ext4" "inand@lbl" "/mnt" []
      (by decide) (by decide) (by decide) (by decide)).2 2
      (fun k hk => by
        show (if k < 2 then (-1 : Int) else 4) < 0
        rw [if_pos hk]; decide)
      (by show ¬ (if 2 < 2 then (-1 : Int) else 4) < 0; decide)
      5 (by decide)⟩

/-- When `j` is the least blank slot (all slots below it are configured),
every slot device opens, and the bind on `j` succeeds, the scan binds
exactly slot `j` and clears no other slot. -/
theorem loopScan_least (w : World) (system target : String) (flags : ℕ)
    (options : Option String) (fd : Int) (j : ℕ)
    (hopen : ∀ m, ¬ w.openLoop m < 0)
    (hblank : w.loopBlank j = true)
    (hset : w.loopSetFdOk j = true) :
    ∀ fuel n, n ≤ j → (∀ i, n ≤ i → i < j → w.loopBlank i = false) →
      j - n < fuel →
      ∃ r evs, loopScan w system target flags options fd fuel n = some (r, evs) ∧
        setFdSlots evs = [j] ∧ (∀ i ∈ clrFdSlots evs, i = j) := by
  intro fuel
  induction fuel with
  | zero => intro n h1 h2 h3; omega
  | succ fuel ih =>
    intro n h1 h2 h3
    rw [loopScan]
    dsimp only
    rw [if_neg (hopen n)]
    by_cases hnj : n = j
    · subst hnj
      simp only [hblank, hset, Bool.and_self, if_true]
      split
      · exact ⟨-1, _, rfl, by simp [setFdSlots], by simp [clrFdSlots]⟩
      · exact ⟨0, _, rfl, by simp [setFdSlots], by simp [clrFdSlots]⟩
    · simp only [h2 n (le_refl n) (by omega), Bool.false_and,
        Bool.false_eq_true, if_false]
      obtain ⟨r, evs, hrec, hsets, hclr⟩ :=
        ih (n + 1) (by omega) (fun i hi1 hi2 => h2 i (by omega) hi2) (by omega)
      rw [hrec]
      refine ⟨r, _, rfl, ?_, ?_⟩
      · simpa [setFdSlots] using hsets
      · simpa [clrFdSlots] using hclr

/-- C8: in the `loop@` branch, when every slot device opens, slot `j` is
the lowest-indexed blank (free) slot and its bind succeeds, the scan binds
the backing file to exactly slot `j`; in particular no `LOOP_SET_FD` or
`LOOP_CLR_FD` is ever issued to a lower-indexed (configured) slot, whose
binding is therefore left unchanged. -/
theorem C8_loop_lowest_slot (w : World) (fuel : ℕ)
    (system source target : String) (rest : List String) (j : ℕ)
    (hmtd : strPrefix "mtd@" source = false)
    (hub : strPrefix "ubifs" system = false)
    (hloop : strPrefix "loop@" source = true)
    (hbk : ¬ w.openBacking < 0)
    (hopen : ∀ m, ¬ w.openLoop m < 0)
    (hblank : w.loopBlank j = true)
    (hmin : ∀ i, i < j → w.loopBlank i = false)
    (hset : w.loopSetFdOk j = true)
    (hfuel : j < fuel) :
    ∃ r evs,
      doMount w fuel ("mount" :: system :: source :: target :: rest) =
        some (r, evs) ∧
      setFdSlots evs = [j] ∧ (∀ i ∈ clrFdSlots evs, i = j) := by
  rw [doMount_loop w fuel system source target rest hmtd hub hloop]
  rw [if_neg hbk]
  obtain ⟨r, evs, hscan, hsets, hclr⟩ :=
    loopScan_least w system target (parseMountArgs rest).1
      (parseMountArgs rest).2.1 w.openBacking j hopen hblank hset fuel 0
      (by omega) (fun i _ h2 => hmin i h2) (by omega)
  rw [hscan]
  refine ⟨r, _, rfl, ?_, ?_⟩
  · simpa [setFdSlots] using hsets
  · simpa [clrFdSlots] using hclr

theorem C8_loop_lowest_slot_witness :
    ∃ r evs,
      doMount wMountOk 5 ["mount", "ext4", "loop@/x", "/mnt"] = some (r, evs) ∧
      setFdSlots evs = [1] ∧ (∀ i ∈ clrFdSlots evs, i = 1) :=
  C8_loop_lowest_slot wMountOk 5 "ext4" "loop@/x" "/mnt" [] 1
    (by decide) (by decide) (by decide) (by decide)
    (fun m => by show ¬ (10 + (m : Int) < 0); omega)
    (by decide)
    (fun i hi => by
      have hz : i = 0 := by omega
      subst hz; decide)
    (by decide) (by decide)

/-- When every slot device opens, the loop-slot scan closes every
descriptor it opens and also balances the already-open backing descriptor
`fd` (which is closed right after a successful bind). -/
theorem loopScan_fdState (w : World) (system target : String) (flags : ℕ)
    (options : Option String) (fd : Int) (fuel n : ℕ) (r : Int)
    (evs : List Event)
    (hopen : ∀ m, ¬ w.openLoop m < 0)
    (h : loopScan w system target flags options fd fuel n = some (r, evs)) :
    ∀ s, fdState (fd ::ₘ s) evs = s := by
  induction fuel generalizing n r evs with
  | zero => simp [loopScan] at h
  | succ fuel ih =>
    rw [loopScan] at h
    dsimp only at h
    rw [if_neg (hopen n)] at h
    split at h
    · split at h <;>
      · simp only [Option.some.injEq, Prod.mk.injEq] at h
        obtain ⟨-, h2⟩ := h
        subst h2
        intro s
        simp only [fdState]
        rw [Multiset.cons_swap, Multiset.erase_cons_head,
          Multiset.erase_cons_head]
    · cases hrec : loopScan w system target flags options fd fuel (n + 1) with
      | none => rw [hrec] at h; exact absurd h (by simp)
      | some p =>
        obtain ⟨r', evs'⟩ := p
        rw [hrec] at h
        simp only [Option.some.injEq, Prod.mk.injEq] at h
        obtain ⟨-, h2⟩ := h
        subst h2
        intro s
        simp only [fdState]
        rw [Multiset.erase_cons_head]
        exact ih (n + 1) r' evs' hrec s

/-- C9 counterexample: in the `loop@` branch, when opening the first
loop-slot device fails the function returns -1 at once without closing the
already-opened backing descriptor (fd 7 here): the trace opens it and never
closes it, so one descriptor is still live on return. -/
theorem C9_counterexample :
    doMount wLoopOpenFail 5 ["mount", "ext4", "loop@/x", "/mnt"] =
      some (-1, [Event.openFd "/x" 7]) ∧
    fdState 0 [Event.openFd "/x" 7] ≠ 0 := by decide

/-- C9 amended: on every exit path of the `loop@` branch on which all
loop-slot device opens succeed, every descriptor the branch opens is closed
before returning (the backing descriptor is closed right after a successful
transfer into a binding, so it too ends closed); but on the path where
opening a loop-slot device fails, the function returns without closing the
backing descriptor, leaking it. -/
theorem C9_amended (w : World) (fuel : ℕ) (system source target : String)
    (rest : List String) (r : Int) (evs : List Event)
    (hmtd : strPrefix "mtd@" source = false)
    (hub : strPrefix "ubifs" system = false)
    (hloop : strPrefix "loop@" source = true)
    (hopen : ∀ m, ¬ w.openLoop m < 0)
    (h : doMount w fuel ("mount" :: system :: source :: target :: rest) =
      some (r, evs)) :
    fdState 0 evs = 0 := by
  rw [doMount_loop w fuel system source target rest hmtd hub hloop] at h
  split at h
  · simp only [Option.some.injEq, Prod.mk.injEq] at h
    obtain ⟨-, h2⟩ := h; subst h2; rfl
  · cases hrec : loopScan w system target (parseMountArgs rest).1
        (parseMountArgs rest).2.1 w.openBacking fuel 0 with
    | none => rw [hrec] at h; exact absurd h (by simp)
    | some p =>
      obtain ⟨r', evs'⟩ := p
      rw [hrec] at h
      simp only [Option.some.injEq, Prod.mk.injEq] at h
      obtain ⟨-, h2⟩ := h
      subst h2
      simp only [fdState]
      exact loopScan_fdState w system target _ _ _ fuel 0 r' evs' hopen hrec 0

theorem C9_amended_witness :
    fdState 0 [Event.openFd "/x" 7,
               Event.openFd "/dev/block/loop0" 10, Event.closeFd 10,
               Event.openFd "/dev/block/loop1" 11, Event.setFd 1 11 7,
               Event.closeFd 7,
               Event.mountCall "/dev/block/loop1" "/mnt" "ext4" 0 none 0,
               Event.closeFd 11] = 0 :=
  C9_amended wMountOk 5 "ext4" "loop@/x" "/mnt" [] 0 _
    (by decide) (by decide) (by decide)
    (fun m => by show ¬ (10 + (m : Int) < 0); omega)
    (by decide)

end Builtins
